import Mathlib

/-!
Verification of the account parse → aggregate → filter → export pipeline
of the nf-account-filter-bot repository (`src/main.py`).

Python strings are embedded as `List Char` (`PyStr`); the relevant string
methods (`strip`, `lower`, `split` with and without a count, `splitlines`,
`in`, `replace`) are reproduced below, restricted to the ASCII behaviour the
program relies on.  Python dicts holding the parsed attributes are embedded
as association lists where the most recent binding is found first, which
realises last-write-wins lookup.
-/

set_option maxHeartbeats 1000000

abbrev PyStr := List Char

/-- The characters removed by Python `str.strip()` (ASCII whitespace). -/
def pyIsSpace (c : Char) : Bool :=
  c = ' ' || c = '\t' || c = '\n' || c = '\x0d' || c = '\x0b' || c = '\x0c'

/-- The line boundaries recognised by Python `str.splitlines()`
(restricted to the ASCII ones; `\x0d\n` counts as a single boundary). -/
def isLineBreak (c : Char) : Bool :=
  c = '\n' || c = '\x0d' || c = '\x0b' || c = '\x0c' ||
  c = '\x1c' || c = '\x1d' || c = '\x1e'

/-- Python `s.strip()`: drop leading and trailing whitespace. -/
def strip (l : PyStr) : PyStr :=
  (((l.dropWhile pyIsSpace).reverse).dropWhile pyIsSpace).reverse

/-- Python `s.lower()` (ASCII letters, which is all the program compares). -/
def lower (l : PyStr) : PyStr :=
  l.map Char.toLower

/-- Python `sep in s`. -/
def hasChar (sep : Char) (l : PyStr) : Bool :=
  l.any (fun c => c == sep)

/-- Python `s.split(sep, 1)`: text before the first `sep`, and the remainder
after it (`none` when `sep` does not occur). -/
def split1 (sep : Char) : PyStr → PyStr × Option PyStr
  | [] => ([], none)
  | c :: cs =>
    if c = sep then ([], some cs)
    else
      let r := split1 sep cs
      (c :: r.1, r.2)

/-- Python `s.split(sep)` (unbounded): note `"".split(sep) == [""]`. -/
def splitAll (sep : Char) : PyStr → List PyStr
  | [] => [[]]
  | c :: cs =>
    if c = sep then [] :: splitAll sep cs
    else
      match splitAll sep cs with
      | [] => [[c]]
      | h :: t => (c :: h) :: t

/-- Worker for `splitlines`: cut at every line boundary (`\x0d\n` counts as
one boundary), always keeping a final piece, so `splitBreaks "a\n" =
["a", ""]` and `splitBreaks "" = [""]`. -/
def splitBreaks : PyStr → List PyStr
  | [] => [[]]
  | '\x0d' :: '\n' :: rest => [] :: splitBreaks rest
  | c :: cs =>
    if isLineBreak c then [] :: splitBreaks cs
    else
      match splitBreaks cs with
      | [] => [[c]]
      | h :: t => (c :: h) :: t

/-- Python `s.splitlines()`: like `splitBreaks`, except that the piece after
a trailing boundary (empty by construction) is not a line, and the empty
string has no lines. -/
def splitlines (l : PyStr) : List PyStr :=
  let ps := splitBreaks l
  if ps.getLast? = some [] then ps.dropLast else ps

/-- Lookup in the attribute dict (most recent binding first). -/
def dfind (d : List (PyStr × PyStr)) (k : PyStr) : Option PyStr :=
  (d.find? (fun p => p.1 == k)).map (fun p => p.2)

/-- Python `d.get(k, dflt)`. -/
def dget (d : List (PyStr × PyStr)) (k dflt : PyStr) : PyStr :=
  (dfind d k).getD dflt

/-- One parsed account line (`AccountParser._parse_line`'s result dict). -/
structure Account where
  email : PyStr
  password : PyStr
  details : List (PyStr × PyStr)
  raw : PyStr
deriving DecidableEq

/-- `AccountParser._parse_line` with the Python locals (`parts`,
`credentials`, `parsed_details`, `kv`) inlined: `credentials` is
`strip (split1 '|' line).1`, and the optional remainder after the first
pipe is `(split1 '|' line).2`.  `none` models the `ValueError` raised when
the credentials part has no colon (the only raising statement in the
body), which the caller catches and turns into dropping the line. -/
def parse_line (line : PyStr) : Option Account :=
  match split1 ':' (strip (split1 '|' line).1) with
  | (_, none) => none
  | (e, some pw) =>
    some { email := strip e, password := strip pw,
           details :=
             match (split1 '|' line).2 with
             | none => []
             | some details_part =>
               (splitAll '|' details_part).foldl
                 (fun d detail =>
                   if hasChar '=' detail then
                     (strip (split1 '=' detail).1,
                      strip ((split1 '=' detail).2.getD [])) :: d
                   else d) []
           raw := strip line }

/-- `AccountParser.parse_file`: skip blank lines, drop lines whose parse
raises, keep input order. -/
def parse_file (content : PyStr) : List Account :=
  (splitlines content).filterMap
    (fun line => if strip line = [] then none else parse_line line)

/-- A frequency table (Python `defaultdict(int)`, insertion-ordered). -/
abbrev Table := List (PyStr × Nat)

/-- `table[k] += 1` on a `defaultdict(int)`: bump the existing entry in
place, or append a fresh entry with count 1. -/
def bump (k : PyStr) : Table → Table
  | [] => [(k, 1)]
  | (k', n) :: rest => if k' = k then (k, n + 1) :: rest else (k', n) :: bump k rest

/-- Sum of the counts of a frequency table. -/
def tableSum (t : Table) : Nat :=
  (t.map (fun p => p.2)).sum

/-- Count recorded for key `k` (0 when the key never occurred). -/
def tableCount (t : Table) (k : PyStr) : Nat :=
  ((t.find? (fun p => p.1 == k)).map (fun p => p.2)).getD 0

/-- The dict built by `StatsGenerator.generate_stats`. -/
structure Stats where
  plans : Table
  phone : Table
  country : Table
  hold : Table
  payment : Table
  total : Nat
deriving DecidableEq

/-- The body of the `for account in accounts` loop of `generate_stats`. -/
def statsStep (s : Stats) (account : Account) : Stats :=
  let details := account.details
  { s with
    plans := bump (dget details ("Plan".toList) ("Unknown".toList)) s.plans
    phone := bump (dget details ("PhoneVerified".toList) ("Unknown".toList)) s.phone
    country := bump (dget details ("Country".toList) ("Unknown".toList)) s.country
    hold := bump (dget details ("Hold".toList) ("false".toList)) s.hold
    payment := bump (dget details ("PaymentMethod".toList) ("Unknown".toList)) s.payment }

/-- `StatsGenerator.generate_stats`: `total` is set to `len(accounts)` up
front, then one pass over the accounts bumps all five tables. -/
def generate_stats (accounts : List Account) : Stats :=
  accounts.foldl statsStep
    { plans := [], phone := [], country := [], hold := [], payment := [],
      total := accounts.length }

/-- The per-account condition of `NetflixAccountBot.filter_accounts`: the
final `else` (unrecognised filter type) keeps nothing. -/
def filterPred (filterType value : PyStr) (account : Account) : Bool :=
  let details := account.details
  if filterType = ("plan".toList) then
    lower (dget details ("Plan".toList) []) == lower value
  else if filterType = ("country".toList) then
    lower (dget details ("Country".toList) []) == lower value
  else if filterType = ("phone".toList) then
    let phone_status := lower (dget details ("PhoneVerified".toList) ("Unknown".toList))
    (value == ("Verified".toList) && phone_status == ("true".toList)) ||
    (value == ("Unverified".toList) &&
      (phone_status == ("false".toList) || phone_status == ("null".toList) ||
       phone_status == ("unknown".toList)))
  else if filterType = ("hold".toList) then
    let hold_status := lower (dget details ("Hold".toList) ("false".toList))
    (value == ("On Hold".toList) && hold_status == ("true".toList)) ||
    (value == ("Active".toList) && hold_status == ("false".toList))
  else if filterType = ("payment".toList) then
    lower (dget details ("PaymentMethod".toList) ("Unknown".toList)) == lower value
  else false

/-- `NetflixAccountBot.filter_accounts`: append each matching account, in
input order. -/
def filter_accounts (accounts : List Account) (filterType value : PyStr) : List Account :=
  accounts.filter (filterPred filterType value)

/-- The fixed CSV header row of `format_filtered_accounts`. -/
def csvHeader : PyStr :=
  "Email,Password,Plan,Country,PhoneVerified,Hold,PaymentMethod".toList

/-- Python `s.replace(old, new)` for a single-character `old`. -/
def replaceChar (old : Char) (new : PyStr) : PyStr → PyStr
  | [] => []
  | c :: cs => if c = old then new ++ replaceChar old new cs else c :: replaceChar old new cs

/-- One escaped CSV cell: `'"' + cell.replace('"', '""') + '"'`. -/
def csvCell (cell : PyStr) : PyStr :=
  '"' :: (replaceChar '"' ("\"\"".toList) cell ++ ['"'])

/-- `NetflixAccountBot.format_filtered_accounts`, content only (the
returned filename embeds a wall-clock timestamp and is rebuilt by
`send_export_files` anyway).  `none` models the `UnboundLocalError` the
Python body raises when `format_type` is neither `"text"` nor `"csv"`. -/
def format_filtered_accounts (accounts : List Account) (format_type : PyStr) : Option PyStr :=
  if format_type = ("text".toList) then
    some (List.intercalate ("\n".toList) (accounts.map (fun acc => acc.raw)))
  else if format_type = ("csv".toList) then
    some (List.intercalate ("\n".toList)
      (csvHeader :: accounts.map (fun acc =>
        let details := acc.details
        List.intercalate (",".toList)
          ([acc.email, acc.password,
            dget details ("Plan".toList) [],
            dget details ("Country".toList) [],
            dget details ("PhoneVerified".toList) [],
            dget details ("Hold".toList) [],
            dget details ("PaymentMethod".toList) []].map csvCell))))
  else none

/-- `f"{label}_{timestamp}"`, or `f"{label}_{batch_size}x_{timestamp}"`
when `batch_size` is truthy (nonzero). -/
def baseName (label timestamp : PyStr) (batch_size : Nat) : PyStr :=
  if batch_size ≠ 0 then
    label ++ ("_".toList) ++ (toString batch_size).toList ++ ("x_".toList) ++ timestamp
  else label ++ ("_".toList) ++ timestamp

/-- File extension chosen by `send_export_files`:
`".txt" if fmt=="text" else ".csv"`. -/
def extOf (fmt : PyStr) : PyStr :=
  if fmt = ("text".toList) then ".txt".toList else ".csv".toList

/-- One `context.bot.send_document(...)` call made by `send_export_files`:
the name and the bytes of the file it ships. -/
structure SinkCall where
  filename : PyStr
  content : PyStr
deriving DecidableEq

/-- Number of chunks `range(0, n, b)` yields, i.e. `ceil(n / b)`. -/
def nchunks (n b : Nat) : Nat :=
  (n + b - 1) / b

/-- `NetflixAccountBot.send_export_files` as the list of documents it
sends.  `none` models the exception propagating out of the initial
`format_filtered_accounts` call on an unknown format.  The Python loop
`for idx in range(0, len(accounts), batch_size)` is indexed here by the
chunk number `i` (so `idx = i * batch_size`, and the loop body's
`part = idx // batch_size + 1` is kept verbatim); its chunk
`accounts[idx : idx + batch_size]` is `(accounts.drop idx).take batch_size`. -/
def send_export_files (accounts : List Account) (fmt : PyStr) (batch_size : Nat)
    (label timestamp : PyStr) : Option (List SinkCall) :=
  let base := baseName label timestamp batch_size
  match format_filtered_accounts accounts fmt with
  | none => none
  | some content =>
    if batch_size = 0 ∨ accounts.length ≤ batch_size then
      some [{ filename := base ++ extOf fmt, content := content }]
    else
      some ((List.range (nchunks accounts.length batch_size)).map (fun i =>
        let idx := i * batch_size
        let chunk := (accounts.drop idx).take batch_size
        let part := idx / batch_size + 1
        { filename := base ++ ("_batch".toList) ++ (toString part).toList ++ extOf fmt,
          content := (format_filtered_accounts chunk fmt).getD [] }))

/-- A record with no attributes at all (parse of the line `e:p`). -/
def a0 : Account :=
  { email := "e".toList, password := "p".toList, details := [], raw := "e:p".toList }

/-- A record whose phone-verification attribute is `"true"`. -/
def acctPhoneTrue : Account :=
  { email := "e".toList, password := "p".toList,
    details := [("PhoneVerified".toList, "true".toList)],
    raw := "e:p|PhoneVerified=true".toList }

/-- A single line `identifier:secret|k=v` assembled from its four parts. -/
def mkLine (idf sec k v : PyStr) : PyStr :=
  idf ++ ':' :: (sec ++ '|' :: (k ++ '=' :: v))

/-- Cell escaping as the spec words it: every embedded double quote is
doubled (stated independently of `replaceChar`). -/
def quoteDoubled (cell : PyStr) : PyStr :=
  cell.foldr (fun c acc => if c = '"' then '"' :: '"' :: acc else c :: acc) []

theorem bump_sum (k : PyStr) (t : Table) : tableSum (bump k t) = tableSum t + 1 := by
  induction t with
  | nil => simp [bump, tableSum]
  | cons p rest ih =>
    obtain ⟨k', n⟩ := p
    by_cases h : k' = k <;> simp [bump, h, tableSum] at * <;> omega

theorem statsStep_total (s : Stats) (a : Account) :
    (statsStep s a).total = s.total := rfl

theorem statsStep_plans (s : Stats) (a : Account) :
    tableSum (statsStep s a).plans = tableSum s.plans + 1 := bump_sum _ _

theorem statsStep_phone (s : Stats) (a : Account) :
    tableSum (statsStep s a).phone = tableSum s.phone + 1 := bump_sum _ _

theorem statsStep_country (s : Stats) (a : Account) :
    tableSum (statsStep s a).country = tableSum s.country + 1 := bump_sum _ _

theorem statsStep_hold (s : Stats) (a : Account) :
    tableSum (statsStep s a).hold = tableSum s.hold + 1 := bump_sum _ _

theorem statsStep_payment (s : Stats) (a : Account) :
    tableSum (statsStep s a).payment = tableSum s.payment + 1 := bump_sum _ _

theorem statsFold (l : List Account) : ∀ s : Stats,
    (l.foldl statsStep s).total = s.total ∧
    tableSum (l.foldl statsStep s).plans = tableSum s.plans + l.length ∧
    tableSum (l.foldl statsStep s).phone = tableSum s.phone + l.length ∧
    tableSum (l.foldl statsStep s).country = tableSum s.country + l.length ∧
    tableSum (l.foldl statsStep s).hold = tableSum s.hold + l.length ∧
    tableSum (l.foldl statsStep s).payment = tableSum s.payment + l.length := by
  induction l with
  | nil => intro s; simp
  | cons a t ih =>
    intro s
    have h := ih (statsStep s a)
    simp only [List.foldl_cons, List.length_cons]
    refine ⟨?_, ?_, ?_, ?_, ?_, ?_⟩
    · rw [h.1, statsStep_total]
    · rw [h.2.1, statsStep_plans]; omega
    · rw [h.2.2.1, statsStep_phone]; omega
    · rw [h.2.2.2.1, statsStep_country]; omega
    · rw [h.2.2.2.2.1, statsStep_hold]; omega
    · rw [h.2.2.2.2.2, statsStep_payment]; omega

/-- C3: `aggregate(R).total` is the number of records, and each of the five
frequency tables' counts sum to the number of records, every record
contributing exactly one increment to every table (with its fallback value
when the attribute is missing). -/
theorem c3_aggregate_totals (R : List Account) :
    (generate_stats R).total = R.length ∧
    tableSum (generate_stats R).plans = R.length ∧
    tableSum (generate_stats R).phone = R.length ∧
    tableSum (generate_stats R).country = R.length ∧
    tableSum (generate_stats R).hold = R.length ∧
    tableSum (generate_stats R).payment = R.length := by
  have h := statsFold R
    { plans := [], phone := [], country := [], hold := [], payment := [],
      total := R.length }
  unfold generate_stats
  simpa [tableSum] using h

/-- C8: `filter` is idempotent: re-filtering by the same criterion and value
returns the same collection. -/
theorem c8_filter_idempotent (R : List Account) (c v : PyStr) :
    filter_accounts (filter_accounts R c v) c v = filter_accounts R c v := by
  unfold filter_accounts
  induction R with
  | nil => rfl
  | cons a t ih =>
    by_cases h : filterPred c v a = true <;> simp [List.filter_cons, h, ih]

/-- C9: for every collection, criterion and value, the filter result is an
order-preserving subsequence of the input, containing exactly the records
satisfying the predicate (with their input multiplicities, so nothing is
duplicated) — the input list itself is untouched. -/
theorem c9_filter_subsequence (R : List Account) (c v : PyStr) :
    List.Sublist (filter_accounts R c v) R ∧
    (∀ a, a ∈ filter_accounts R c v ↔ a ∈ R ∧ filterPred c v a = true) ∧
    (∀ a, (filter_accounts R c v).count a =
      if filterPred c v a then R.count a else 0) := by
  refine ⟨List.filter_sublist R, fun a => List.mem_filter, fun a => ?_⟩
  by_cases hp : filterPred c v a = true
  · rw [if_pos hp]
    exact List.count_filter hp
  · rw [if_neg hp]
    refine List.count_eq_zero.mpr ?_
    intro hmem
    exact hp ((List.mem_filter.mp hmem).2)

/-- C10: absent `PaymentMethod` falls back to `"Unknown"` in the payment
filter (so any letter-casing of `Unknown` selects the record), while absent
`Plan`/`Country` fall back to the empty string (so exactly the empty value
selects the record, and `"Unknown"` does not). -/
theorem c10_filter_defaults (R : List Account) (a : Account) (v : PyStr) (ha : a ∈ R) :
    (dfind a.details ("PaymentMethod".toList) = none → lower v = ("unknown".toList) →
      a ∈ filter_accounts R ("payment".toList) v) ∧
    (dfind a.details ("Plan".toList) = none →
      (a ∈ filter_accounts R ("plan".toList) v ↔ v = [])) ∧
    (dfind a.details ("Country".toList) = none →
      (a ∈ filter_accounts R ("country".toList) v ↔ v = [])) := by
  refine ⟨fun h hv => ?_, fun h => ?_, fun h => ?_⟩
  · refine List.mem_filter.mpr ⟨ha, ?_⟩
    have hred : filterPred ("payment".toList) v a =
        (lower (dget a.details ("PaymentMethod".toList) ("Unknown".toList)) == lower v) := rfl
    rw [hred]
    simp only [dget, h, Option.getD_none, hv]
    decide
  · have hiff : a ∈ filter_accounts R ("plan".toList) v ↔
        a ∈ R ∧ filterPred ("plan".toList) v a = true := List.mem_filter
    have hred : filterPred ("plan".toList) v a =
        (lower (dget a.details ("Plan".toList) []) == lower v) := rfl
    rw [hiff, hred]
    simp only [dget, h, Option.getD_none]
    simp only [ha, true_and]
    rw [beq_iff_eq]
    cases v with
    | nil => simp [lower]
    | cons c cs => simp [lower]
  · have hiff : a ∈ filter_accounts R ("country".toList) v ↔
        a ∈ R ∧ filterPred ("country".toList) v a = true := List.mem_filter
    have hred : filterPred ("country".toList) v a =
        (lower (dget a.details ("Country".toList) []) == lower v) := rfl
    rw [hiff, hred]
    simp only [dget, h, Option.getD_none]
    simp only [ha, true_and]
    rw [beq_iff_eq]
    cases v with
    | nil => simp [lower]
    | cons c cs => simp [lower]

/-- C10 witness: the record with no attributes is selected by the payment
filter with value `UNKNOWN`. -/
theorem c10_witness : a0 ∈ filter_accounts [a0] ("payment".toList) ("UNKNOWN".toList) :=
  (c10_filter_defaults [a0] a0 ("UNKNOWN".toList) (by decide)).1 (by decide) (by decide)

/-- C4 counterexample: with a record whose phone attribute is `"true"`, the
phone filter selects it for value `Verified` but not `verified`; with a
record whose hold attribute defaults to `"false"`, the hold filter selects
it for `Active` but not `active` — so these comparisons are not
case-insensitive in the caller-supplied value. -/
theorem c4_counterexample :
    filter_accounts [acctPhoneTrue] ("phone".toList) ("verified".toList) ≠
      filter_accounts [acctPhoneTrue] ("phone".toList) ("Verified".toList) ∧
    filter_accounts [a0] ("hold".toList) ("active".toList) ≠
      filter_accounts [a0] ("hold".toList) ("Active".toList) := by
  constructor <;> decide

/-- C4 amended: the phone and hold filters compare the caller-supplied
value case-sensitively against the exact tokens `Verified`/`Unverified` and
`On Hold`/`Active` (only the record's attribute side is lowercased), so the
lowercased tokens select nothing, for every collection. -/
theorem c4_amended (R : List Account) :
    filter_accounts R ("phone".toList) ("verified".toList) = [] ∧
    filter_accounts R ("hold".toList) ("active".toList) = [] ∧
    filter_accounts R ("phone".toList) ("Verified".toList) =
      R.filter (fun a =>
        lower (dget a.details ("PhoneVerified".toList) ("Unknown".toList)) == ("true".toList)) ∧
    filter_accounts R ("hold".toList) ("Active".toList) =
      R.filter (fun a =>
        lower (dget a.details ("Hold".toList) ("false".toList)) == ("false".toList)) := by
  refine ⟨?_, ?_, ?_, ?_⟩
  · have h : filter_accounts R ("phone".toList) ("verified".toList) =
        R.filter (fun _ => false) := rfl
    rw [h]
    simp
  · have h : filter_accounts R ("hold".toList) ("active".toList) =
        R.filter (fun _ => false) := rfl
    rw [h]
    simp
  · unfold filter_accounts
    apply List.filter_congr
    intro a _
    have hred : filterPred ("phone".toList) ("Verified".toList) a =
        (true && (lower (dget a.details ("PhoneVerified".toList) ("Unknown".toList)) == ("true".toList)) ||
         false &&
           (lower (dget a.details ("PhoneVerified".toList) ("Unknown".toList)) == ("false".toList) ||
            lower (dget a.details ("PhoneVerified".toList) ("Unknown".toList)) == ("null".toList) ||
            lower (dget a.details ("PhoneVerified".toList) ("Unknown".toList)) == ("unknown".toList))) := rfl
    rw [hred, Bool.true_and, Bool.false_and, Bool.or_false]
  · unfold filter_accounts
    apply List.filter_congr
    intro a _
    have hred : filterPred ("hold".toList) ("Active".toList) a =
        (false && (lower (dget a.details ("Hold".toList) ("false".toList)) == ("true".toList)) ||
         true && (lower (dget a.details ("Hold".toList) ("false".toList)) == ("false".toList))) := rfl
    rw [hred, Bool.false_and, Bool.true_and, Bool.false_or]

theorem split1_snd_none (sep : Char) (l : PyStr) :
    (split1 sep l).2 = none ↔ hasChar sep l = false := by
  induction l with
  | nil => simp [split1, hasChar]
  | cons c cs ih =>
    by_cases h : c = sep
    · simp [split1, h, hasChar]
    · simp only [split1, if_neg h]
      rw [ih]
      simp [hasChar, h]

theorem parse_line_isSome (line : PyStr) :
    (parse_line line).isSome = hasChar ':' (strip (split1 '|' line).1) := by
  unfold parse_line
  rcases hsp : split1 ':' (strip (split1 '|' line).1) with ⟨e, rest⟩
  have h2 : (split1 ':' (strip (split1 '|' line).1)).2 = rest := by rw [hsp]
  cases rest with
  | none =>
    have hc := (split1_snd_none ':' (strip (split1 '|' line).1)).mp h2
    simp [hc]
  | some pw =>
    cases hhc : hasChar ':' (strip (split1 '|' line).1) with
    | false =>
      have := (split1_snd_none ':' (strip (split1 '|' line).1)).mpr hhc
      rw [h2] at this
      cases this
    | true => rfl

theorem parse_line_raw (line : PyStr) (a : Account) (h : parse_line line = some a) :
    a.raw = strip line := by
  unfold parse_line at h
  rcases hsp : split1 ':' (strip (split1 '|' line).1) with ⟨e, rest⟩
  rw [hsp] at h
  cases rest with
  | none => cases h
  | some pw =>
    simp only [Option.some.injEq] at h
    rw [← h]

/-- C1 counterexample: the line `:p` contains a colon with an empty
identifier, yet `parse` keeps it as a record whose identifier is empty —
such lines are not dropped. -/
theorem c1_counterexample :
    parse_file (":p".toList) =
      [{ email := [], password := "p".toList, details := [], raw := ":p".toList }] := by
  decide

/-- C1 amended: a line parses (and is kept) exactly when its credentials
part — the trimmed text before the first pipe — contains a colon; the
identifier and secret may be empty after trimming.  Every record of the
result comes from some non-blank input line, dropped lines merely being
skipped. -/
theorem c1_parse_keeps_colon_lines :
    (∀ line : PyStr, (parse_line line).isSome = hasChar ':' (strip (split1 '|' line).1)) ∧
    (∀ content : PyStr, ∀ a ∈ parse_file content,
      ∃ line, line ∈ splitlines content ∧ strip line ≠ [] ∧ parse_line line = some a) := by
  constructor
  · exact parse_line_isSome
  · intro content a ha
    unfold parse_file at ha
    rcases List.mem_filterMap.mp ha with ⟨line, hline, hsome⟩
    by_cases hs : strip line = []
    · rw [if_pos hs] at hsome
      cases hsome
    · rw [if_neg hs] at hsome
      exact ⟨line, hline, hs, hsome⟩

/-- C1 witness: every record of `parse "x:y"` traces back to a kept line. -/
theorem c1_witness :
    ∃ line, line ∈ splitlines ("x:y".toList) ∧ strip line ≠ [] ∧
      parse_line line =
        some { email := "x".toList, password := "y".toList, details := [],
               raw := "x:y".toList } :=
  c1_parse_keeps_colon_lines.2 ("x:y".toList)
    { email := "x".toList, password := "y".toList, details := [], raw := "x:y".toList }
    (by decide)

/-- C5 counterexample: a record whose `Plan` attribute parsed to the empty
string is counted under the empty string, not under `"Unknown"`. -/
theorem c5_counterexample :
    (generate_stats (parse_file ("a:b|Plan=".toList))).plans = [([], 1)] ∧
    tableCount (generate_stats (parse_file ("a:b|Plan=".toList))).plans ("Unknown".toList) = 0 := by
  constructor <;> decide

/-- C5 amended: the fixed fallback of each stats table is used only when
the attribute key is absent from the record; a present-but-empty value is
counted under the empty string. -/
theorem c5_fallback_only_when_absent (a : Account) :
    (dfind a.details ("Plan".toList) = none →
      (generate_stats [a]).plans = [("Unknown".toList, 1)]) ∧
    (dfind a.details ("Plan".toList) = some [] →
      (generate_stats [a]).plans = [([], 1)]) ∧
    (dfind a.details ("Hold".toList) = none →
      (generate_stats [a]).hold = [("false".toList, 1)]) := by
  refine ⟨fun h => ?_, fun h => ?_, fun h => ?_⟩ <;>
    simp only [generate_stats, List.foldl_cons, List.foldl_nil, statsStep,
      dget, h, Option.getD_none, Option.getD_some, bump]

/-- C5 witness: the attribute-free record is counted under `"Unknown"`. -/
theorem c5_witness : (generate_stats [a0]).plans = [("Unknown".toList, 1)] :=
  (c5_fallback_only_when_absent a0).1 (by decide)

theorem mem_dropWhile_of_neg {p : Char → Bool} {c : Char} (hc : p c = false) :
    ∀ {l : PyStr}, c ∈ l → c ∈ l.dropWhile p := by
  intro l hl
  induction l with
  | nil => cases hl
  | cons d ds ih =>
    by_cases hd : p d = true
    · rw [List.dropWhile_cons, if_pos hd]
      rcases List.mem_cons.mp hl with rfl | h
      · rw [hd] at hc
        cases hc
      · exact ih h
    · rw [List.dropWhile_cons, if_neg hd]
      exact hl

theorem mem_strip {c : Char} (hc : pyIsSpace c = false) {l : PyStr} (hl : c ∈ l) :
    c ∈ strip l := by
  unfold strip
  rw [List.mem_reverse]
  exact mem_dropWhile_of_neg hc (List.mem_reverse.mpr (mem_dropWhile_of_neg hc hl))

theorem split1_append (sep : Char) (xs ys : PyStr) (h : hasChar sep xs = false) :
    split1 sep (xs ++ sep :: ys) = (xs, some ys) := by
  induction xs with
  | nil => simp [split1]
  | cons c cs ih =>
    simp only [hasChar, List.any_cons, Bool.or_eq_false_iff] at h
    have hc : ¬ c = sep := by
      intro e
      rw [e] at h
      simp at h
    simp only [List.cons_append, split1, if_neg hc]
    simp [ih (by simp [hasChar, h.2])]

theorem splitBreaks_no_break : ∀ {l : PyStr},
    (∀ c ∈ l, isLineBreak c = false) → splitBreaks l = [l] := by
  intro l
  induction l with
  | nil => intro _; rfl
  | cons c cs ih =>
    intro h
    have hc : isLineBreak c = false := h c (by simp)
    have hcs : splitBreaks cs = [cs] := ih (fun x hx => h x (by simp [hx]))
    have hne : c ≠ '\x0d' := by
      intro e
      rw [e] at hc
      cases hc
    rw [splitBreaks.eq_def]
    split
    · rename_i heq
      cases heq
    · rename_i rest heq
      injection heq with ha hb
      exact absurd ha hne
    · rename_i c' cs' h1 h2
      injection h2 with ha hb
      subst ha
      subst hb
      rw [if_neg (by simp [hc])]
      rw [hcs]

theorem splitlines_no_break {l : PyStr} (h : ∀ c ∈ l, isLineBreak c = false)
    (hne : l ≠ []) : splitlines l = [l] := by
  unfold splitlines
  rw [splitBreaks_no_break h]
  simp [hne]

theorem intercalate_single (sep x : PyStr) : List.intercalate sep [x] = x := by
  simp [List.intercalate]

/-- C2: a well-formed single line `identifier:secret|k=v` — no pipe inside
identifier or secret, no line break anywhere, and no surrounding
whitespace — parses to exactly one record whose `raw` is the original
line, and exporting that one-record collection in the text format
reproduces the line byte-for-byte. -/
theorem c2_text_roundtrip (idf sec k v : PyStr)
    (h1 : hasChar '|' idf = false) (h2 : hasChar '|' sec = false)
    (h3 : ∀ c ∈ mkLine idf sec k v, isLineBreak c = false)
    (h4 : strip (mkLine idf sec k v) = mkLine idf sec k v) :
    ∃ a, parse_file (mkLine idf sec k v) = [a] ∧
      a.raw = mkLine idf sec k v ∧
      format_filtered_accounts (parse_file (mkLine idf sec k v)) ("text".toList) =
        some (mkLine idf sec k v) := by
  have hLne : mkLine idf sec k v ≠ [] := by
    unfold mkLine
    intro e
    rcases List.append_eq_nil.mp e with ⟨-, e2⟩
    cases e2
  have hsl : splitlines (mkLine idf sec k v) = [mkLine idf sec k v] :=
    splitlines_no_break h3 hLne
  have hsp : split1 '|' (mkLine idf sec k v) = (idf ++ ':' :: sec, some (k ++ '=' :: v)) := by
    have hassoc : mkLine idf sec k v = (idf ++ ':' :: sec) ++ '|' :: (k ++ '=' :: v) := by
      simp [mkLine]
    rw [hassoc]
    apply split1_append
    simp only [hasChar, List.any_append, List.any_cons, Bool.or_eq_false_iff]
    refine ⟨by simpa [hasChar] using h1, by decide, by simpa [hasChar] using h2⟩
  have hcolon : hasChar ':' (strip (split1 '|' (mkLine idf sec k v)).1) = true := by
    rw [hsp]
    have hmem : ':' ∈ idf ++ ':' :: sec := by simp
    have hmem2 := mem_strip (by decide) hmem
    simp only [hasChar, List.any_eq_true]
    exact ⟨':', hmem2, by decide⟩
  have hps : (parse_line (mkLine idf sec k v)).isSome := by
    rw [parse_line_isSome]
    exact hcolon
  obtain ⟨a, ha⟩ := Option.isSome_iff_exists.mp hps
  have hraw : a.raw = mkLine idf sec k v := by
    rw [parse_line_raw (mkLine idf sec k v) a ha, h4]
  have hs : ¬ strip (mkLine idf sec k v) = [] := by
    rw [h4]
    exact hLne
  have hpf : parse_file (mkLine idf sec k v) = [a] := by
    unfold parse_file
    rw [hsl]
    simp [if_neg hs, ha]
  refine ⟨a, hpf, hraw, ?_⟩
  rw [hpf]
  have hfmt : format_filtered_accounts [a] ("text".toList) =
      some (List.intercalate ("\n".toList) [a.raw]) := rfl
  rw [hfmt, intercalate_single, hraw]

/-- C2 witness: the round trip at a concrete line `a@x.com:pw1|Plan=Premium`. -/
theorem c2_witness :
    ∃ a, parse_file (mkLine ("a@x.com".toList) ("pw1".toList) ("Plan".toList) ("Premium".toList)) = [a] ∧
      a.raw = mkLine ("a@x.com".toList) ("pw1".toList) ("Plan".toList) ("Premium".toList) ∧
      format_filtered_accounts
          (parse_file (mkLine ("a@x.com".toList) ("pw1".toList) ("Plan".toList) ("Premium".toList)))
          ("text".toList) =
        some (mkLine ("a@x.com".toList) ("pw1".toList) ("Plan".toList) ("Premium".toList)) :=
  c2_text_roundtrip ("a@x.com".toList) ("pw1".toList) ("Plan".toList) ("Premium".toList)
    (by decide) (by decide) (by decide) (by decide)

theorem replaceChar_quote (cell : PyStr) :
    replaceChar '"' ("\"\"".toList) cell = quoteDoubled cell := by
  induction cell with
  | nil => rfl
  | cons c cs ih =>
    have hr : replaceChar '"' ("\"\"".toList) (c :: cs) =
        if c = '"' then ("\"\"".toList) ++ replaceChar '"' ("\"\"".toList) cs
        else c :: replaceChar '"' ("\"\"".toList) cs := rfl
    have hq : quoteDoubled (c :: cs) =
        if c = '"' then '"' :: '"' :: quoteDoubled cs else c :: quoteDoubled cs := rfl
    rw [hr, hq, ih]
    by_cases h : c = '"'
    · rw [if_pos h, if_pos h]
      rfl
    · rw [if_neg h, if_neg h]

/-- C7: the CSV export is the fixed header followed by one row per record
in collection order; every cell is wrapped in double quotes with embedded
quotes doubled, and absent attributes render as the empty string.  In
particular the one-record scenario of the spec produces exactly the
claimed bytes. -/
theorem c7_csv_format :
    (∀ accounts : List Account,
      format_filtered_accounts accounts ("csv".toList) =
        some (List.intercalate ("\n".toList)
          (("Email,Password,Plan,Country,PhoneVerified,Hold,PaymentMethod".toList) ::
            accounts.map (fun acc =>
              List.intercalate (",".toList)
                ([acc.email, acc.password,
                  dget acc.details ("Plan".toList) [],
                  dget acc.details ("Country".toList) [],
                  dget acc.details ("PhoneVerified".toList) [],
                  dget acc.details ("Hold".toList) [],
                  dget acc.details ("PaymentMethod".toList) []].map
                  (fun cell => '"' :: (quoteDoubled cell ++ ['"'])))))) ) ∧
    format_filtered_accounts (parse_file ("x@y.com:p\"w|Plan=Pro".toList)) ("csv".toList) =
      some ("Email,Password,Plan,Country,PhoneVerified,Hold,PaymentMethod\n\"x@y.com\",\"p\"\"w\",\"Pro\",\"\",\"\",\"\",\"\"".toList) := by
  constructor
  · intro accounts
    have hred : format_filtered_accounts accounts ("csv".toList) =
        some (List.intercalate ("\n".toList)
          (csvHeader :: accounts.map (fun acc =>
            List.intercalate (",".toList)
              ([acc.email, acc.password,
                dget acc.details ("Plan".toList) [],
                dget acc.details ("Country".toList) [],
                dget acc.details ("PhoneVerified".toList) [],
                dget acc.details ("Hold".toList) [],
                dget acc.details ("PaymentMethod".toList) []].map csvCell)))) := rfl
    have hcell : csvCell = fun cell => '"' :: (quoteDoubled cell ++ ['"']) := by
      funext cell
      show '"' :: (replaceChar '"' ("\"\"".toList) cell ++ ['"']) = _
      rw [replaceChar_quote]
    rw [hred, hcell]
    rfl
  · decide

theorem nchunks_mul_ge (n b : Nat) (hb : 0 < b) : n ≤ nchunks n b * b := by
  unfold nchunks
  have hd := Nat.div_add_mod (n + b - 1) b
  have hm : (n + b - 1) % b < b := Nat.mod_lt _ hb
  rw [Nat.mul_comm]
  omega

theorem nchunks_pred_mul_lt (n b : Nat) (hb : 0 < b) (hn : 0 < n) :
    (nchunks n b - 1) * b < n := by
  unfold nchunks
  have hd := Nat.div_add_mod (n + b - 1) b
  have hm : (n + b - 1) % b < b := Nat.mod_lt _ hb
  have hbridge : ((n + b - 1) / b - 1) * b = b * ((n + b - 1) / b) - b := by
    rw [Nat.sub_mul, Nat.one_mul, Nat.mul_comm]
  rw [hbridge]
  omega

theorem nchunks_eq (n b : Nat) (hb : 0 < b) :
    nchunks n b = if n % b = 0 then n / b else n / b + 1 := by
  unfold nchunks
  by_cases h : n % b = 0
  · rw [if_pos h]
    have hd := Nat.div_add_mod n b
    rw [h, Nat.add_zero] at hd
    have he : n + b - 1 = b * (n / b) + (b - 1) := by
      rw [hd]
      omega
    have hlt : (b - 1) / b = 0 := Nat.div_eq_of_lt (by omega)
    rw [he, Nat.mul_add_div hb, hlt, Nat.add_zero]
  · rw [if_neg h]
    have hd := Nat.div_add_mod n b
    have hm : n % b < b := Nat.mod_lt _ hb
    have hm1 : 1 ≤ n % b := by omega
    have he : n + b - 1 = b * (n / b + 1) + (n % b - 1) := by
      have hx : b * (n / b + 1) = b * (n / b) + b := by ring
      rw [hx]
      omega
    have hlt : (n % b - 1) / b = 0 := Nat.div_eq_of_lt (by omega)
    rw [he, Nat.mul_add_div hb, hlt, Nat.add_zero]

theorem flatten_slices (b : Nat) (l : List Account) :
    ∀ k : Nat, ((List.range k).map (fun i => (l.drop (i * b)).take b)).flatten =
      l.take (k * b) := by
  intro k
  induction k with
  | zero => simp
  | succ k ih =>
    rw [List.range_succ, List.map_append, List.flatten_append]
    simp only [List.map_cons, List.map_nil, List.flatten_cons, List.flatten_nil]
    rw [ih, List.append_nil, Nat.succ_mul, List.take_add]

theorem slice_length (n b i : Nat) (l : List Account) (hl : l.length = n) (hb : 0 < b)
    (hbn : b < n) (hi : i < nchunks n b) :
    ((l.drop (i * b)).take b).length =
      if i + 1 = nchunks n b then (if n % b = 0 then b else n % b) else b := by
  have hk1 := nchunks_mul_ge n b hb
  have hk2 := nchunks_pred_mul_lt n b hb (by omega)
  have hlen : ((l.drop (i * b)).take b).length = min b (n - i * b) := by
    simp [List.length_take, List.length_drop, hl]
  rw [hlen]
  by_cases hlast : i + 1 = nchunks n b
  · rw [if_pos hlast]
    have hd := Nat.div_add_mod n b
    by_cases hmod : n % b = 0
    · rw [if_pos hmod]
      have hk := nchunks_eq n b hb
      rw [if_pos hmod] at hk
      have hib : i * b = b * (n / b) - b := by
        have hieq : i = n / b - 1 := by omega
        rw [hieq, Nat.sub_mul, Nat.one_mul, Nat.mul_comm]
      rw [hib]
      omega
    · rw [if_neg hmod]
      have hk := nchunks_eq n b hb
      rw [if_neg hmod] at hk
      have hm : n % b < b := Nat.mod_lt _ hb
      have hib : i * b = b * (n / b) := by
        have hieq : i = n / b := by omega
        rw [hieq, Nat.mul_comm]
      rw [hib]
      omega
  · rw [if_neg hlast]
    have hle : i + 1 ≤ nchunks n b - 1 := by omega
    have hmul : (i + 1) * b ≤ (nchunks n b - 1) * b := Nat.mul_le_mul_right b hle
    have hsucc : (i + 1) * b = i * b + b := by ring
    omega

/-- C6 amended: with batch size 0, or at most `b` records,
`send_export_files` makes exactly one sink call carrying all records as
one payload; otherwise it makes exactly `ceil(n/b) = (n+b-1)/b` calls (the
characterising inequalities of the ceiling are stated too), on contiguous
order-preserving chunks of size `b` except the last of size `n mod b` (or
`b` when `b` divides `n`), each chunk independently formatted — each call
carries the 1-based part index embedded in its filename (but not the total
part count, which the loop computes and then discards; see the
counterexample), and for the CSV format every chunk's payload starts with
the repeated header. -/
theorem c6_batch_split (accounts : List Account) (fmt : PyStr) (b : Nat)
    (label ts : PyStr)
    (hfmt : fmt = ("text".toList) ∨ fmt = ("csv".toList)) :
    ((b = 0 ∨ accounts.length ≤ b) →
      send_export_files accounts fmt b label ts =
        some [{ filename := baseName label ts b ++ extOf fmt,
                content := (format_filtered_accounts accounts fmt).getD [] }]) ∧
    (0 < b → b < accounts.length →
      send_export_files accounts fmt b label ts =
        some ((List.range (nchunks accounts.length b)).map (fun i =>
          { filename := baseName label ts b ++ ("_batch".toList) ++
              (toString (i + 1)).toList ++ extOf fmt,
            content := (format_filtered_accounts ((accounts.drop (i * b)).take b)
              fmt).getD [] })) ∧
      accounts.length ≤ nchunks accounts.length b * b ∧
      (nchunks accounts.length b - 1) * b < accounts.length ∧
      ((List.range (nchunks accounts.length b)).map
        (fun i => (accounts.drop (i * b)).take b)).flatten = accounts ∧
      (∀ i, i < nchunks accounts.length b →
        ((accounts.drop (i * b)).take b).length =
          if i + 1 = nchunks accounts.length b then
            (if accounts.length % b = 0 then b else accounts.length % b)
          else b) ∧
      (fmt = ("csv".toList) → ∀ i, i < nchunks accounts.length b →
        ∃ rest, (format_filtered_accounts ((accounts.drop (i * b)).take b) fmt).getD [] =
          csvHeader ++ rest)) := by
  obtain ⟨content, hc⟩ : ∃ c, format_filtered_accounts accounts fmt = some c := by
    rcases hfmt with rfl | rfl
    · exact ⟨_, rfl⟩
    · exact ⟨_, rfl⟩
  constructor
  · intro hb
    simp only [send_export_files, hc, if_pos hb, Option.getD_some]
  · intro hb0 hlt
    have hcond : ¬ (b = 0 ∨ accounts.length ≤ b) := by omega
    refine ⟨?_, nchunks_mul_ge _ _ hb0, nchunks_pred_mul_lt _ _ hb0 (by omega), ?_, ?_, ?_⟩
    · simp only [send_export_files, hc, if_neg hcond, Option.some.injEq]
      apply List.map_congr_left
      intro i hi
      have hdv : i * b / b = i := Nat.mul_div_cancel i hb0
      rw [hdv]
    · rw [flatten_slices]
      exact List.take_of_length_le (nchunks_mul_ge _ _ hb0)
    · intro i hi
      exact slice_length accounts.length b i accounts rfl hb0 hlt hi
    · intro hcsv i hi
      rw [hcsv]
      have hred : format_filtered_accounts ((accounts.drop (i * b)).take b) ("csv".toList) =
          some (List.intercalate ("\n".toList)
            (csvHeader :: ((accounts.drop (i * b)).take b).map (fun acc =>
              List.intercalate (",".toList)
                ([acc.email, acc.password,
                  dget acc.details ("Plan".toList) [],
                  dget acc.details ("Country".toList) [],
                  dget acc.details ("PhoneVerified".toList) [],
                  dget acc.details ("Hold".toList) [],
                  dget acc.details ("PaymentMethod".toList) []].map csvCell)))) := rfl
      rw [hred, Option.getD_some]
      cases hrows : ((accounts.drop (i * b)).take b).map (fun acc =>
          List.intercalate (",".toList)
            ([acc.email, acc.password,
              dget acc.details ("Plan".toList) [],
              dget acc.details ("Country".toList) [],
              dget acc.details ("PhoneVerified".toList) [],
              dget acc.details ("Hold".toList) [],
              dget acc.details ("PaymentMethod".toList) []].map csvCell)) with
      | nil => exact ⟨[], by simp [List.intercalate]⟩
      | cons r rs =>
        refine ⟨("\n".toList) ++ List.intercalate ("\n".toList) (r :: rs), ?_⟩
        simp [List.intercalate, List.intersperse_cons_cons]

/-- C6 counterexample: five one-attribute-free records, batch size 2 —
three parts, so the claimed total part count is 3, yet the first sink call
(`send_document` receives only the file bytes and the filename) is exactly
`f_2x_T_batch1.txt` with payload `e:p\ne:p`: the character `3` occurs
nowhere in it, so that call does not carry the total part count in any
form; each call carries only its 1-based part index. -/
theorem c6_counterexample :
    send_export_files (List.replicate 5 a0) ("text".toList) 2 ("f".toList) ("T".toList) =
      some [{ filename := "f_2x_T_batch1.txt".toList, content := "e:p\ne:p".toList },
            { filename := "f_2x_T_batch2.txt".toList, content := "e:p\ne:p".toList },
            { filename := "f_2x_T_batch3.txt".toList, content := "e:p".toList }] ∧
    ¬ '3' ∈ (("f_2x_T_batch1.txt".toList ++ "e:p\ne:p".toList : PyStr)) := by
  constructor <;> decide

/-- C6 witness: five records with batch size 2 yield three sink calls. -/
theorem c6_witness :
    ∃ calls, send_export_files (List.replicate 5 a0) ("text".toList) 2
        ("f".toList) ("T".toList) = some calls ∧ calls.length = 3 := by
  obtain ⟨h1, -, -, -, -, -⟩ :=
    (c6_batch_split (List.replicate 5 a0) ("text".toList) 2 ("f".toList) ("T".toList)
      (Or.inl rfl)).2 (by decide) (by decide)
  exact ⟨_, h1, by simp [nchunks]⟩
